import Mathlib

/-!
Verification of the kube dynamic-resource and WebSocket-upgrade core.

This file gives a shallow embedding of two source files:
  - kube-client/src/client/upgrade.rs   (handshake verification)
  - kube/src/api/dynamic.rs             (dynamic resource identity / discovery)
and proves the specification claims about them.

Header values are modelled as byte lists (`List Nat`), since HTTP header
values need not be valid UTF-8.  Strings are Lean `String`s; the UTF-8
encoding of a string is made explicit where the code compares header bytes
against a string.
-/

/-- UTF-8 encoding of a single character (scalar value), as byte values. -/
def utf8EncodeChar (c : Char) : List Nat :=
  let n := c.toNat
  if n < 0x80 then [n]
  else if n < 0x800 then [0xC0 + n / 64, 0x80 + n % 64]
  else if n < 0x10000 then [0xE0 + n / 4096, 0x80 + (n / 64) % 64, 0x80 + n % 64]
  else [0xF0 + n / 262144, 0x80 + (n / 4096) % 64, 0x80 + (n / 64) % 64, 0x80 + n % 64]

/-- The UTF-8 bytes of a string (how Rust stores a `str`). -/
def strBytes (s : String) : List Nat :=
  (s.toList.map utf8EncodeChar).flatten

/-- Visible-ASCII test used by `http::HeaderValue::to_str`:
a byte is acceptable iff it is in 32..=126 or is a horizontal tab. -/
def isVisibleAscii (b : Nat) : Bool :=
  (32 ≤ b && b < 127) || b == 9

/-- Model of `http::HeaderValue::to_str`: yields a string iff every byte is
visible ASCII; such bytes decode one-to-one as ASCII characters. -/
def headerStr? (bs : List Nat) : Option String :=
  if bs.all isVisibleAscii then some (String.mk (bs.map Char.ofNat)) else none

/-- ASCII lower-casing of one character (Rust `u8::to_ascii_lowercase`). -/
def asciiLowerChar (c : Char) : Char :=
  if 'A' ≤ c && c ≤ 'Z' then Char.ofNat (c.toNat + 32) else c

/-- Model of Rust `str::eq_ignore_ascii_case`. -/
def eqIgnoreAsciiCase (a b : String) : Bool :=
  a.toList.map asciiLowerChar == b.toList.map asciiLowerChar

/-- One step of the standard UTF-8 acceptor automaton (RFC 3629).  The
state is `none` after a malformed byte, and otherwise `some (k, lo, hi)`:
`k` continuation bytes are still expected and the next byte must lie in
`[lo, hi]` when `k > 0`.  The per-lead-byte first-continuation ranges rule
out overlong encodings and surrogates. -/
def utf8Step (st : Option (Nat × Nat × Nat)) (b : Nat) : Option (Nat × Nat × Nat) :=
  match st with
  | none => none
  | some (0, _, _) =>
    if b ≤ 0x7F then some (0, 0, 0)
    else if 0xC2 ≤ b && b ≤ 0xDF then some (1, 0x80, 0xBF)
    else if b = 0xE0 then some (2, 0xA0, 0xBF)
    else if (0xE1 ≤ b && b ≤ 0xEC) || (0xEE ≤ b && b ≤ 0xEF) then some (2, 0x80, 0xBF)
    else if b = 0xED then some (2, 0x80, 0x9F)
    else if b = 0xF0 then some (3, 0x90, 0xBF)
    else if 0xF1 ≤ b && b ≤ 0xF3 then some (3, 0x80, 0xBF)
    else if b = 0xF4 then some (3, 0x80, 0x8F)
    else none
  | some (k + 1, lo, hi) =>
    if lo ≤ b && b ≤ hi then some (k, 0x80, 0xBF) else none

/-- Standard UTF-8 validity of a byte sequence: run the acceptor automaton
and require it to end at the boundary state. -/
def validUtf8 (bs : List Nat) : Bool :=
  match bs.foldl utf8Step (some (0, 0, 0)) with
  | some (0, _, _) => true
  | _ => false

/-! ## Model of kube-client/src/client/upgrade.rs -/

/-- Binary subprotocol v4. implements v3 and adds support for json exit codes. -/
def WS_PROTOCOL_V4 : String := "v4.channel.k8s.io"

/-- Binary subprotocol v5. implements v4 and adds CLOSE signal. -/
def WS_PROTOCOL_V5 : String := "v5.channel.k8s.io"

/-- The advertised offer list. -/
def WS_PROTOCOLS : String := "v5.channel.k8s.io,v4.channel.k8s.io"

/-- `enum SubProto` from upgrade.rs. -/
inductive SubProto where
  | V4
  | V5
deriving DecidableEq, Repr

/-- `impl FromStr for SubProto` from upgrade.rs. -/
def SubProto.from_str (s : String) : Except String SubProto :=
  if s = WS_PROTOCOL_V4 then .ok .V4
  else if s = WS_PROTOCOL_V5 then .ok .V5
  else .error "invalid subprotocol"

/-- `struct WsStream<S>` from upgrade.rs; the live stream is abstract. -/
structure WsStream (S : Type) where
  stream : S
  proto : SubProto

/-- `WsStream::new`. -/
def WsStream.new {S : Type} (stream : S) (proto : SubProto) : WsStream S :=
  { stream := stream, proto := proto }

/-- `WsStream::supports_closing`: `matches!(self.proto, SubProto::V5)`. -/
def WsStream.supports_closing {S : Type} (self : WsStream S) : Bool :=
  match self.proto with
  | SubProto.V5 => true
  | _ => false

/-- `enum UpgradeConnectionError` from upgrade.rs.  The transport-layer
variant `GetPendingUpgrade(hyper::Error)` is never produced by
`verify_response` and carries an external error type, so it is omitted. -/
inductive UpgradeConnectionError where
  | ProtocolSwitch (status : Nat)
  | MissingUpgradeWebSocketHeader
  | MissingConnectionUpgradeHeader
  | SecWebSocketAcceptKeyMismatch
  | SecWebSocketProtocolMismatch
deriving DecidableEq, Repr

/-- A minimal model of `http::Response<Body>` as consumed by
`verify_response`: the status code and the header map.  `http::HeaderMap`
stores header names lower-cased; we keep that invariant by convention and
look headers up by their lower-case names, as the `http::header` constants
do.  A header value is a byte list. -/
structure Response where
  status : Nat
  headers : List (String × List Nat)

/-- `HeaderMap::get`: first value for the given (lower-case) name. -/
def getHeader (res : Response) (hname : String) : Option (List Nat) :=
  (res.headers.find? (fun p => p.1 == hname)).map (fun p => p.2)

/-- The repeated check pattern of `verify_response` for the `Upgrade` and
`Connection` headers:
`headers.get(name).and_then(to_str).map(eq_ignore_ascii_case expected).unwrap_or(false)`. -/
def checkHeaderCI (res : Response) (hname expected : String) : Bool :=
  (((getHeader res hname).bind headerStr?).map (fun h => eqIgnoreAsciiCase h expected)).getD false

/-- `verify_response` from upgrade.rs.  The accept-key derivation
`tungstenite::handshake::derive_accept_key` is an external library
function; it is passed in as the parameter `dk` (the code compares the
`Sec-WebSocket-Accept` header bytes against the UTF-8 bytes of `dk key`). -/
def verify_response (dk : String → String) (res : Response) (key : String) :
    Except UpgradeConnectionError SubProto :=
  if res.status ≠ 101 then .error (.ProtocolSwitch res.status)
  else if checkHeaderCI res "upgrade" "websocket" = false then
    .error .MissingUpgradeWebSocketHeader
  else if checkHeaderCI res "connection" "Upgrade" = false then
    .error .MissingConnectionUpgradeHeader
  else if (((getHeader res "sec-websocket-accept").map
      (fun h => h == strBytes (dk key))).getD false) = false then
    .error .SecWebSocketAcceptKeyMismatch
  else
    match getHeader res "sec-websocket-protocol" with
    | some h =>
      match SubProto.from_str ((headerStr? h).getD "") with
      | .ok p => .ok p
      | .error _ => .error .SecWebSocketProtocolMismatch
    | none => .error .SecWebSocketProtocolMismatch

/-! ## Model of kube/src/api/dynamic.rs -/

/-- `GroupVersionKind` (from crate::api): the three coordinates used by
`ApiResource::from_gvk`. -/
structure GroupVersionKind where
  group : String
  version : String
  kind : String
deriving DecidableEq, Repr

/-- The fields of `k8s_openapi ... APIResource` read by dynamic.rs
(`group`, `kind`, `name`, `namespaced`, `verbs`, `version`); the remaining
fields of the discovery entry are never consulted. -/
structure APIResource where
  group : Option String
  kind : String
  name : String
  namespaced : Bool
  verbs : List String
  version : Option String
deriving DecidableEq, Repr

/-- The fields of `k8s_openapi ... APIResourceList` read by dynamic.rs. -/
structure APIResourceList where
  group_version : String
  resources : List APIResource
deriving DecidableEq, Repr

/-- `struct ApiResource` from dynamic.rs. -/
structure ApiResource where
  group : String
  version : String
  api_version : String
  kind : String
  plural : String
deriving DecidableEq, Repr

/-- Rust `s.splitn(2, sep)` on characters: split at the first occurrence of
`sep`; `none` means no occurrence (one fragment), `some (l, r)` means the
fragments before and after the first `sep`. -/
def splitFirst (sep : Char) : List Char → Option (List Char × List Char)
  | [] => none
  | c :: cs =>
    if c = sep then some ([], cs)
    else (splitFirst sep cs).map (fun p => (c :: p.1, p.2))

/-- `ApiResource::from_apiresource` from dynamic.rs: split the
group-version string on the first slash (`[g, v]` if a slash occurs,
`[v]` with empty default group otherwise), let the entry's own
`group`/`version` override the defaults, compute `api_version` from the
invariant, and copy the entry's `name` as the plural. -/
def ApiResource.from_apiresource (ar : APIResource) (group_version : String) : ApiResource :=
  let dgv : String × String :=
    match splitFirst '/' group_version.toList with
    | some (g, v) => (String.mk g, String.mk v)
    | none => ("", group_version)
  let group := ar.group.getD dgv.1
  let version := ar.version.getD dgv.2
  let kind := ar.kind
  let api_version := if group = "" then version else group ++ "/" ++ version
  let plural := ar.name
  { group := group, version := version, api_version := api_version,
    kind := kind, plural := plural }

/-- The accessor functions of one `impl Resource` (trait objects live in
crate::api; only the five identity accessors are consulted by
`ApiResource::erase`). -/
structure ResourceImpl (DT : Type) where
  group : DT → String
  version : DT → String
  api_version : DT → String
  kind : DT → String
  plural : DT → String

/-- `ApiResource::erase`: copies the five accessor values of the given
`Resource` implementation verbatim. -/
def ApiResource.erase {DT : Type} (R : ResourceImpl DT) (dt : DT) : ApiResource :=
  { group := R.group dt, version := R.version dt, api_version := R.api_version dt,
    kind := R.kind dt, plural := R.plural dt }

/-- Modelled from the spec: `to_plural` (crate::api::metadata, whose source
is not part of this repository snapshot).  English pluralization
heuristic: append "es" after endings s/x/z/ch/sh, use "ies" for a final y
preceded by a consonant, otherwise append "s". -/
def to_plural (word : String) : String :=
  match word.toList.reverse with
  | 's' :: _ => word ++ "es"
  | 'x' :: _ => word ++ "es"
  | 'z' :: _ => word ++ "es"
  | 'h' :: 'c' :: _ => word ++ "es"
  | 'h' :: 's' :: _ => word ++ "es"
  | 'y' :: c :: _ =>
    if c ∈ ['a', 'e', 'i', 'o', 'u'] then word ++ "s"
    else String.mk word.toList.dropLast ++ "ies"
  | _ => word ++ "s"

/-- Rust `str::to_ascii_lowercase`. -/
def asciiLowercase (s : String) : String :=
  String.mk (s.toList.map asciiLowerChar)

/-- `ApiResource::from_gvk` from dynamic.rs: copy the coordinates, compute
`api_version` from the invariant, and guess the plural from the
ASCII-lower-cased kind. -/
def ApiResource.from_gvk (gvk : GroupVersionKind) : ApiResource :=
  let api_version := if gvk.group = "" then gvk.version else gvk.group ++ "/" ++ gvk.version
  { group := gvk.group, version := gvk.version, api_version := api_version,
    kind := gvk.kind, plural := to_plural (asciiLowercase gvk.kind) }

/-- `TypeMeta` (from crate::api::metadata): apiVersion and kind tag. -/
structure TypeMeta where
  api_version : String
  kind : String
deriving DecidableEq, Repr

/-- The `k8s_openapi` `ObjectMeta` fields relevant here, with their
`Default` values; maps are association lists in document order. -/
structure ObjectMeta where
  annotations : List (String × String) := []
  finalizers : List String := []
  generate_name : Option String := none
  generation : Option Int := none
  labels : List (String × String) := []
  name : Option String := none
  «namespace» : Option String := none
  resource_version : Option String := none
  uid : Option String := none
deriving DecidableEq, Repr

/-- `serde_json::Value`; its `Default` is `Null`. -/
inductive Json where
  | null
  | bool (b : Bool)
  | num (n : Int)
  | str (s : String)
  | arr (elems : List Json)
  | obj (fields : List (String × Json))
deriving Repr

/-- `struct DynamicObject` from dynamic.rs. -/
structure DynamicObject where
  types : Option TypeMeta
  metadata : ObjectMeta
  data : Json

/-- `DynamicObject::new`: type-tag from the identity's apiVersion/kind,
metadata holding only the name, default (null) payload. -/
def DynamicObject.new (name : String) (resource : ApiResource) : DynamicObject :=
  { types := some { api_version := resource.api_version, kind := resource.kind },
    metadata := { name := some name },
    data := Json.null }

/-- `DynamicObject::data` (the fluent mutator; renamed to avoid clashing
with the field of the same name): replace the payload. -/
def DynamicObject.withData (self : DynamicObject) (d : Json) : DynamicObject :=
  { self with data := d }

/-- `DynamicObject::within`: set the metadata namespace. -/
def DynamicObject.within (self : DynamicObject) (ns : String) : DynamicObject :=
  { self with metadata := { self.metadata with «namespace» := some ns } }

/-- `impl Resource for DynamicObject` from dynamic.rs: every identity
accessor reads the corresponding field of the `ApiResource` dynamic type. -/
def DynamicObject.resourceImpl : ResourceImpl ApiResource :=
  { group := fun dt => dt.group, version := fun dt => dt.version,
    api_version := fun dt => dt.api_version, kind := fun dt => dt.kind,
    plural := fun dt => dt.plural }

/-- `enum Scope` from dynamic.rs. -/
inductive Scope where
  | Cluster
  | Namespaced
deriving DecidableEq, Repr

/-- `struct Operations` from dynamic.rs. -/
structure Operations where
  create : Bool
  get : Bool
  list : Bool
  watch : Bool
  delete : Bool
  delete_collection : Bool
  update : Bool
  patch : Bool
  other : List String
deriving DecidableEq, Repr

/-- `Operations::empty`. -/
def Operations.empty : Operations :=
  { create := false, get := false, list := false, watch := false, delete := false,
    delete_collection := false, update := false, patch := false, other := [] }

/-- One iteration of the verb-classification loop in
`ApiResourceExtras::from_apiresourcelist` (a `match verb.as_str()` over
the eight known tokens; anything else is pushed onto `other`). -/
def applyVerb (ops : Operations) (verb : String) : Operations :=
  if verb = "create" then { ops with create := true }
  else if verb = "get" then { ops with get := true }
  else if verb = "list" then { ops with list := true }
  else if verb = "watch" then { ops with watch := true }
  else if verb = "delete" then { ops with delete := true }
  else if verb = "deletecollection" then { ops with delete_collection := true }
  else if verb = "update" then { ops with update := true }
  else if verb = "patch" then { ops with patch := true }
  else { ops with other := ops.other ++ [verb] }

/-- `struct ApiResourceExtras` from dynamic.rs (an inductive, because the
subresource tree is recursive). -/
inductive ApiResourceExtras where
  | mk (scope : Scope) (subresources : List (ApiResource × ApiResourceExtras))
       (operations : Operations)

/-- Scope of an `ApiResourceExtras`. -/
def ApiResourceExtras.scope : ApiResourceExtras → Scope
  | .mk s _ _ => s

/-- Subresource tree of an `ApiResourceExtras`. -/
def ApiResourceExtras.subresources :
    ApiResourceExtras → List (ApiResource × ApiResourceExtras)
  | .mk _ s _ => s

/-- Operations of an `ApiResourceExtras`. -/
def ApiResourceExtras.operations : ApiResourceExtras → Operations
  | .mk _ _ o => o

/-- Rust `str::strip_prefix` restricted to character lists. -/
def dropPfxChars : List Char → List Char → Option (List Char)
  | [], cs => some cs
  | _ :: _, [] => none
  | p :: ps, c :: cs => if p = c then dropPfxChars ps cs else none

/-- Rust `str::strip_prefix` on strings. -/
def stripPfxStr (p s : String) : Option String :=
  (dropPfxChars p.toList s.toList).map String.mk

/-- The largest resource-name length occurring in a discovery document. -/
def maxNameLen (rs : List APIResource) : Nat :=
  rs.foldr (fun r acc => max r.name.length acc) 0

/-- The body of `ApiResourceExtras::from_apiresourcelist`, with the
recursion made structural on an explicit fuel argument.  One unit of fuel
is spent per recursion level; every recursive call targets an entry name
that is strictly longer than the current target (it extends it past a
slash), and lookups only succeed for names occurring in the document, so
`maxNameLen list.resources + 1` units are always sufficient (see the
wrapper below).  The `expect` panic of the source on an unknown name is
modelled as `none`. -/
def fromListFuel : Nat → APIResourceList → String → Option ApiResourceExtras
  | 0, _, _ => none
  | fuel + 1, list, name =>
    match list.resources.find? (fun r => r.name == name) with
    | none => none
    | some ar =>
      let scope := if ar.namespaced then Scope.Namespaced else Scope.Cluster
      let operations := ar.verbs.foldl applyVerb Operations.empty
      let pfx := name ++ "/"
      let subresources := list.resources.filterMap (fun res =>
        match stripPfxStr pfx res.name with
        | none => none
        | some sub =>
          match fromListFuel fuel list res.name with
          | some extra =>
            some ({ ApiResource.from_apiresource res list.group_version with
                      plural := sub }, extra)
          | none => none)
      some (.mk scope subresources operations)

/-- `ApiResourceExtras::from_apiresourcelist` from dynamic.rs: the fuel
bound `maxNameLen list.resources + 1` dominates the recursion depth, so
this computes exactly the source's recursion (and `none` models the
source's panic on a name absent from the document). -/
def ApiResourceExtras.from_apiresourcelist (list : APIResourceList) (name : String) :
    Option ApiResourceExtras :=
  fromListFuel (maxNameLen list.resources + 1) list name

/-! ## Definitions supporting the claim statements -/

/-- The eight verb tokens recognised by the classification loop. -/
def knownVerbs : List String :=
  ["create", "get", "list", "watch", "delete", "deletecollection", "update", "patch"]

/-- The apiVersion invariant claimed by the spec for every constructed
resource identity. -/
def apiVersionInvariant (a : ApiResource) : Prop :=
  a.api_version = if a.group = "" then a.version else a.group ++ "/" ++ a.version

instance (a : ApiResource) : Decidable (apiVersionInvariant a) := by
  unfold apiVersionInvariant
  infer_instance

/-- The three-entry discovery document of the subresource-tree example:
entries `foo`, `foo/status`, `foo/status/logs`. -/
def fooDoc : APIResourceList :=
  { group_version := "g/v1",
    resources :=
      [{ group := none, kind := "Foo", name := "foo", namespaced := true,
         verbs := ["get"], version := none },
       { group := none, kind := "Foo", name := "foo/status", namespaced := true,
         verbs := ["get"], version := none },
       { group := none, kind := "Foo", name := "foo/status/logs", namespaced := true,
         verbs := ["get"], version := none }] }

/-- Operations of every entry of `fooDoc` (verb list ["get"]). -/
def fooOps : Operations :=
  { create := false, get := true, list := false, watch := false, delete := false,
    delete_collection := false, update := false, patch := false, other := [] }

/-- The identity computed for a `fooDoc` subresource, with its plural
overridden by the stripped local name. -/
def fooSubIdent (plural : String) : ApiResource :=
  { group := "g", version := "v1", api_version := "g/v1", kind := "Foo",
    plural := plural }

/-- The capability tree computed for `foo` from `fooDoc`. -/
def fooExtras : ApiResourceExtras :=
  .mk Scope.Namespaced
    [(fooSubIdent "status",
      .mk Scope.Namespaced
        [(fooSubIdent "logs", .mk Scope.Namespaced [] fooOps)] fooOps),
     (fooSubIdent "status/logs", .mk Scope.Namespaced [] fooOps)]
    fooOps

/-! ## Evaluation sanity checks -/

example :
    verify_response (fun _ => "k")
      { status := 101,
        headers := [("upgrade", strBytes "WebSocket"),
                    ("connection", strBytes "Upgrade"),
                    ("sec-websocket-accept", strBytes "k"),
                    ("sec-websocket-protocol", strBytes "v4.channel.k8s.io")] }
      "nonce" = .ok .V4 := by rfl

example :
    verify_response (fun _ => "k")
      { status := 200, headers := [] } "nonce" = .error (.ProtocolSwitch 200) := by rfl

example : ApiResourceExtras.from_apiresourcelist fooDoc "foo" = some fooExtras := by rfl

/-! ## Helper lemmas -/

/-- On 7-bit bytes the UTF-8 automaton stays in the boundary state. -/
theorem foldl_utf8Step_ascii :
    ∀ bs : List Nat, (∀ b ∈ bs, b ≤ 0x7F) →
      bs.foldl utf8Step (some (0, 0, 0)) = some (0, 0, 0) := by
  intro bs
  induction bs with
  | nil => intro _; rfl
  | cons b t ih =>
    intro h
    have hb : b ≤ 0x7F := h b (List.mem_cons_self b t)
    have hstep : utf8Step (some (0, 0, 0)) b = some (0, 0, 0) := by
      simp [utf8Step, hb]
    rw [List.foldl_cons, hstep]
    exact ih (fun x hx => h x (List.mem_cons_of_mem b hx))

/-- A byte sequence of 7-bit bytes is valid UTF-8. -/
theorem validUtf8_of_ascii : ∀ bs : List Nat, (∀ b ∈ bs, b ≤ 0x7F) → validUtf8 bs = true := by
  intro bs h
  unfold validUtf8
  rw [foldl_utf8Step_ascii bs h]

/-- A byte sequence that is not valid UTF-8 contains a byte above 0x7F. -/
theorem exists_high_byte_of_invalid {bs : List Nat} (h : validUtf8 bs = false) :
    ∃ b ∈ bs, 0x7F < b := by
  by_contra hcon
  push_neg at hcon
  have htrue := validUtf8_of_ascii bs (fun b hb => hcon b hb)
  rw [htrue] at h
  simp at h

/-- `HeaderValue::to_str` fails on every byte sequence that is not valid
UTF-8 (such a sequence contains a byte above 0x7F, which is not visible
ASCII). -/
theorem headerStr?_eq_none_of_invalid {bs : List Nat} (h : validUtf8 bs = false) :
    headerStr? bs = none := by
  obtain ⟨b, hb, hgt⟩ := exists_high_byte_of_invalid h
  unfold headerStr?
  have hvis : isVisibleAscii b = false := by
    simp only [isVisibleAscii, Bool.or_eq_false_iff, Bool.and_eq_false_iff,
      decide_eq_false_iff_not, beq_eq_false_iff_ne, ne_eq]
    omega
  have hall : bs.all isVisibleAscii = false := by
    rw [List.all_eq_false]
    exact ⟨b, hb, by simp [hvis]⟩
  simp [hall]

/-- Splitting a list with no occurrence of the separator yields nothing. -/
theorem splitFirst_eq_none_of_not_mem {sep : Char} :
    ∀ {l : List Char}, sep ∉ l → splitFirst sep l = none := by
  intro l
  induction l with
  | nil => intro _; rfl
  | cons c cs ih =>
    intro h
    have hc : ¬ c = sep := fun he => h (he ▸ List.mem_cons_self c cs)
    have hcs : sep ∉ cs := fun hm => h (List.mem_cons_of_mem c hm)
    simp [splitFirst, hc, ih hcs]

/-- Splitting at the first separator, when the prefix is separator-free. -/
theorem splitFirst_append {sep : Char} :
    ∀ {g : List Char} (v : List Char), sep ∉ g →
      splitFirst sep (g ++ sep :: v) = some (g, v) := by
  intro g
  induction g with
  | nil => intro v _; simp [splitFirst]
  | cons c cs ih =>
    intro v h
    have hc : ¬ c = sep := fun he => h (he ▸ List.mem_cons_self c cs)
    have hcs : sep ∉ cs := fun hm => h (List.mem_cons_of_mem c hm)
    simp [splitFirst, hc, ih v hcs]

/-- A successful `strip_prefix` decomposes the character list. -/
theorem dropPfxChars_eq_some :
    ∀ {p s t : List Char}, dropPfxChars p s = some t → s = p ++ t := by
  intro p
  induction p with
  | nil =>
    intro s t h
    simpa [dropPfxChars] using h
  | cons x xs ih =>
    intro s t h
    cases s with
    | nil => simp [dropPfxChars] at h
    | cons c cs =>
      by_cases hx : x = c
      · subst hx
        simp only [dropPfxChars, if_pos rfl] at h
        simpa using ih h
      · simp [dropPfxChars, hx] at h

/-- Every name in a document is bounded by `maxNameLen`. -/
theorem name_le_maxNameLen :
    ∀ {rs : List APIResource} {r : APIResource}, r ∈ rs → r.name.length ≤ maxNameLen rs := by
  intro rs
  induction rs with
  | nil => intro r h; cases h
  | cons x xs ih =>
    intro r h
    rcases List.mem_cons.mp h with h1 | h2
    · subst h1; exact le_max_left _ _
    · exact le_trans (ih h2) (le_max_right _ _)

/-- Characterisation of the verb-classification loop: each flag records
whether its token occurs, and unrecognised tokens accumulate in order. -/
theorem foldl_applyVerb (vs : List String) (ops : Operations) :
    vs.foldl applyVerb ops =
      { create := ops.create || vs.contains "create",
        get := ops.get || vs.contains "get",
        list := ops.list || vs.contains "list",
        watch := ops.watch || vs.contains "watch",
        delete := ops.delete || vs.contains "delete",
        delete_collection := ops.delete_collection || vs.contains "deletecollection",
        update := ops.update || vs.contains "update",
        patch := ops.patch || vs.contains "patch",
        other := ops.other ++ vs.filter (fun v => !(knownVerbs.contains v)) } := by
  induction vs generalizing ops with
  | nil => simp
  | cons v vs ih =>
    rw [List.foldl_cons, ih]
    by_cases h1 : v = "create"
    · subst h1; simp [applyVerb, knownVerbs, List.filter]
    by_cases h2 : v = "get"
    · subst h2; simp [applyVerb, knownVerbs, List.filter]
    by_cases h3 : v = "list"
    · subst h3; simp [applyVerb, knownVerbs, List.filter]
    by_cases h4 : v = "watch"
    · subst h4; simp [applyVerb, knownVerbs, List.filter]
    by_cases h5 : v = "delete"
    · subst h5; simp [applyVerb, knownVerbs, List.filter]
    by_cases h6 : v = "deletecollection"
    · subst h6; simp [applyVerb, knownVerbs, List.filter]
    by_cases h7 : v = "update"
    · subst h7; simp [applyVerb, knownVerbs, List.filter]
    by_cases h8 : v = "patch"
    · subst h8; simp [applyVerb, knownVerbs, List.filter]
    simp [applyVerb, knownVerbs, List.filter, h1, h2, h3, h4, h5, h6, h7, h8,
      Ne.symm h1, Ne.symm h2, Ne.symm h3, Ne.symm h4, Ne.symm h5, Ne.symm h6,
      Ne.symm h7, Ne.symm h8]

/-! ## Claim theorems -/

/-- C1: `verify_response` accepts a 101 response whose `Upgrade` header
reads (case-insensitively) as "websocket", whose `Connection` header reads
as "Upgrade", whose `Sec-WebSocket-Accept` header is byte-equal to the
accept key derived from the client nonce, and whose
`Sec-WebSocket-Protocol` header is the v4 (resp. v5) token, returning
`Ok(V4)` (resp. `Ok(V5)`); and the five checks run in order,
short-circuiting at the first failure with the respective error:
`ProtocolSwitch(actual)`, `MissingUpgradeWebSocketHeader`,
`MissingConnectionUpgradeHeader`, `SecWebSocketAcceptKeyMismatch`,
`SecWebSocketProtocolMismatch` (the last also for a missing or
unrecognized protocol header). -/
theorem verify_response_check_cases (dk : String → String) (res : Response) (key : String) :
    ((res.status = 101 ∧ checkHeaderCI res "upgrade" "websocket" = true
      ∧ checkHeaderCI res "connection" "Upgrade" = true
      ∧ getHeader res "sec-websocket-accept" = some (strBytes (dk key))
      ∧ getHeader res "sec-websocket-protocol" = some (strBytes WS_PROTOCOL_V4))
      → verify_response dk res key = .ok .V4)
  ∧ ((res.status = 101 ∧ checkHeaderCI res "upgrade" "websocket" = true
      ∧ checkHeaderCI res "connection" "Upgrade" = true
      ∧ getHeader res "sec-websocket-accept" = some (strBytes (dk key))
      ∧ getHeader res "sec-websocket-protocol" = some (strBytes WS_PROTOCOL_V5))
      → verify_response dk res key = .ok .V5)
  ∧ (res.status ≠ 101 → verify_response dk res key = .error (.ProtocolSwitch res.status))
  ∧ (res.status = 101 → checkHeaderCI res "upgrade" "websocket" = false →
      verify_response dk res key = .error .MissingUpgradeWebSocketHeader)
  ∧ (res.status = 101 → checkHeaderCI res "upgrade" "websocket" = true →
      checkHeaderCI res "connection" "Upgrade" = false →
      verify_response dk res key = .error .MissingConnectionUpgradeHeader)
  ∧ (res.status = 101 → checkHeaderCI res "upgrade" "websocket" = true →
      checkHeaderCI res "connection" "Upgrade" = true →
      (∀ v, getHeader res "sec-websocket-accept" = some v → v ≠ strBytes (dk key)) →
      verify_response dk res key = .error .SecWebSocketAcceptKeyMismatch)
  ∧ (res.status = 101 → checkHeaderCI res "upgrade" "websocket" = true →
      checkHeaderCI res "connection" "Upgrade" = true →
      getHeader res "sec-websocket-accept" = some (strBytes (dk key)) →
      (∀ v, getHeader res "sec-websocket-protocol" = some v →
        (headerStr? v).getD "" ≠ WS_PROTOCOL_V4 ∧ (headerStr? v).getD "" ≠ WS_PROTOCOL_V5) →
      verify_response dk res key = .error .SecWebSocketProtocolMismatch) := by
  refine ⟨?_, ?_, ?_, ?_, ?_, ?_, ?_⟩
  · rintro ⟨hs, hu, hc, ha, hp⟩
    have haccb : ((getHeader res "sec-websocket-accept").map
        (fun h => h == strBytes (dk key))).getD false = true := by
      rw [ha]; simp
    simp only [verify_response, hs, hu, hc, haccb, hp]
    rfl
  · rintro ⟨hs, hu, hc, ha, hp⟩
    have haccb : ((getHeader res "sec-websocket-accept").map
        (fun h => h == strBytes (dk key))).getD false = true := by
      rw [ha]; simp
    simp only [verify_response, hs, hu, hc, haccb, hp]
    rfl
  · intro hs
    simp [verify_response, hs]
  · intro hs hu
    simp [verify_response, hs, hu]
  · intro hs hu hc
    simp [verify_response, hs, hu, hc]
  · intro hs hu hc hacc
    cases hv : getHeader res "sec-websocket-accept" with
    | none => simp [verify_response, hs, hu, hc, hv]
    | some v =>
      have hne : (v == strBytes (dk key)) = false := beq_eq_false_iff_ne.mpr (hacc v hv)
      simp [verify_response, hs, hu, hc, hv, hne]
  · intro hs hu hc ha hpm
    cases hv : getHeader res "sec-websocket-protocol" with
    | none => simp [verify_response, hs, hu, hc, ha, hv]
    | some v =>
      obtain ⟨h4, h5⟩ := hpm v hv
      simp [verify_response, SubProto.from_str, hs, hu, hc, ha, hv, h4, h5]

/-- Witness for the C1 theorem: a concrete successful V5 handshake,
applying the first clauses at an explicit response. -/
theorem verify_response_check_cases_inst :
    verify_response (fun _ => "acceptkey")
      { status := 101,
        headers := [("upgrade", strBytes "websocket"),
                    ("connection", strBytes "upgrade"),
                    ("sec-websocket-accept", strBytes "acceptkey"),
                    ("sec-websocket-protocol", strBytes "v5.channel.k8s.io")] }
      "nonce" = .ok .V5 :=
  (verify_response_check_cases (fun _ => "acceptkey") _ "nonce").2.1
    ⟨rfl, by decide, by decide, by decide, by decide⟩

/-- C8: `supports_closing` is true iff the negotiated subprotocol tag is
V5, and in particular false when the tag is V4. -/
theorem supports_closing_iff_v5 {S : Type} (w : WsStream S) :
    (w.supports_closing = true ↔ w.proto = SubProto.V5)
    ∧ (w.proto = SubProto.V4 → w.supports_closing = false) := by
  obtain ⟨s, p⟩ := w
  cases p <;> simp [WsStream.supports_closing]

/-- Witness for the C8 theorem at a concrete V4 stream handle. -/
theorem supports_closing_iff_v5_inst :
    (WsStream.new 0 SubProto.V4).supports_closing = false :=
  (supports_closing_iff_v5 (WsStream.new 0 SubProto.V4)).2 rfl

/-- C9: with status 101, a checked header present with a value that is
not valid UTF-8 is treated exactly as if it were absent: a non-UTF-8
`Upgrade` header yields MissingUpgradeWebSocketHeader, a non-UTF-8
`Connection` header (with the Upgrade check passing) yields
MissingConnectionUpgradeHeader, and a non-UTF-8 `Sec-WebSocket-Protocol`
header (with all earlier checks passing) yields
SecWebSocketProtocolMismatch. -/
theorem verify_response_non_utf8_headers (dk : String → String) (res : Response) (key : String) :
    ((res.status = 101) →
      (∃ v, getHeader res "upgrade" = some v ∧ validUtf8 v = false) →
      verify_response dk res key = .error .MissingUpgradeWebSocketHeader)
  ∧ ((res.status = 101) → checkHeaderCI res "upgrade" "websocket" = true →
      (∃ v, getHeader res "connection" = some v ∧ validUtf8 v = false) →
      verify_response dk res key = .error .MissingConnectionUpgradeHeader)
  ∧ ((res.status = 101) → checkHeaderCI res "upgrade" "websocket" = true →
      checkHeaderCI res "connection" "Upgrade" = true →
      getHeader res "sec-websocket-accept" = some (strBytes (dk key)) →
      (∃ v, getHeader res "sec-websocket-protocol" = some v ∧ validUtf8 v = false) →
      verify_response dk res key = .error .SecWebSocketProtocolMismatch) := by
  refine ⟨?_, ?_, ?_⟩
  · rintro hs ⟨v, hv, hbad⟩
    have hchk : checkHeaderCI res "upgrade" "websocket" = false := by
      simp [checkHeaderCI, hv, headerStr?_eq_none_of_invalid hbad]
    simp [verify_response, hs, hchk]
  · rintro hs hu ⟨v, hv, hbad⟩
    have hchk : checkHeaderCI res "connection" "Upgrade" = false := by
      simp [checkHeaderCI, hv, headerStr?_eq_none_of_invalid hbad]
    simp [verify_response, hs, hu, hchk]
  · rintro hs hu hc ha ⟨v, hv, hbad⟩
    have hdec := headerStr?_eq_none_of_invalid hbad
    have haccb : ((getHeader res "sec-websocket-accept").map
        (fun h => h == strBytes (dk key))).getD false = true := by
      rw [ha]; simp
    simp only [verify_response, hs, hu, hc, haccb, hv, hdec]
    simp [SubProto.from_str, WS_PROTOCOL_V4, WS_PROTOCOL_V5]

/-- Witness for the C9 theorem: a 101 response whose `Upgrade` header
holds the lone byte 0xFF (not valid UTF-8). -/
theorem verify_response_non_utf8_headers_inst :
    verify_response (fun _ => "k")
      { status := 101, headers := [("upgrade", [0xFF])] } "n"
      = .error .MissingUpgradeWebSocketHeader :=
  (verify_response_non_utf8_headers (fun _ => "k") _ "n").1 rfl
    ⟨[0xFF], by decide, by decide⟩

/-- C10: `within` sets only the metadata namespace, `data`/`withData`
replaces only the payload, and `new` always sets a type-tag. -/
theorem dynamicobject_frame_conditions (d : DynamicObject) (ns : String) (v : Json)
    (nm : String) (ar : ApiResource) :
    ((d.within ns).metadata.«namespace» = some ns)
  ∧ ((d.within ns).types = d.types)
  ∧ ((d.within ns).data = d.data)
  ∧ ((d.within ns).metadata.name = d.metadata.name)
  ∧ ((d.within ns).metadata.annotations = d.metadata.annotations)
  ∧ ((d.within ns).metadata.finalizers = d.metadata.finalizers)
  ∧ ((d.within ns).metadata.generate_name = d.metadata.generate_name)
  ∧ ((d.within ns).metadata.generation = d.metadata.generation)
  ∧ ((d.within ns).metadata.labels = d.metadata.labels)
  ∧ ((d.within ns).metadata.resource_version = d.metadata.resource_version)
  ∧ ((d.within ns).metadata.uid = d.metadata.uid)
  ∧ ((d.withData v).data = v)
  ∧ ((d.withData v).types = d.types)
  ∧ ((d.withData v).metadata = d.metadata)
  ∧ ((DynamicObject.new nm ar).types.isSome = true) :=
  ⟨rfl, rfl, rfl, rfl, rfl, rfl, rfl, rfl, rfl, rfl, rfl, rfl, rfl, rfl, rfl⟩

/-- C3 counterexample: `erase` over DynamicObject's `Resource`
implementation copies the accessor values verbatim, so an `ApiResource`
dynamic type whose `api_version` field is inconsistent with its
`group`/`version` fields is reproduced, violating the invariant. -/
theorem erase_invariant_cex :
    ¬ apiVersionInvariant
      (ApiResource.erase DynamicObject.resourceImpl
        { group := "", version := "v1", api_version := "bogus", kind := "Pod",
          plural := "pods" }) := by decide

/-- C3 amended: `from_apiresource` and `from_gvk` always establish the
apiVersion invariant; `erase` copies accessor values verbatim, so its
output satisfies the invariant exactly when the accessor values do (it
preserves but does not establish the invariant). -/
theorem api_version_invariant_constructors :
    (∀ (ar : APIResource) (gv : String),
      apiVersionInvariant (ApiResource.from_apiresource ar gv))
  ∧ (∀ gvk : GroupVersionKind, apiVersionInvariant (ApiResource.from_gvk gvk))
  ∧ (∀ (DT : Type) (R : ResourceImpl DT) (dt : DT),
      R.api_version dt =
        (if R.group dt = "" then R.version dt
         else R.group dt ++ "/" ++ R.version dt) →
      apiVersionInvariant (ApiResource.erase R dt)) := by
  refine ⟨?_, ?_, ?_⟩
  · intro ar gv
    rfl
  · intro gvk
    rfl
  · intro DT R dt h
    simpa [ApiResource.erase, apiVersionInvariant] using h

/-- Witness for the amended C3 theorem: `erase` applied to a consistent
DynamicObject dynamic type satisfies the invariant. -/
theorem api_version_invariant_constructors_inst :
    apiVersionInvariant
      (ApiResource.erase DynamicObject.resourceImpl
        { group := "apps", version := "v1", api_version := "apps/v1",
          kind := "Deployment", plural := "deployments" }) :=
  api_version_invariant_constructors.2.2 ApiResource DynamicObject.resourceImpl
    { group := "apps", version := "v1", api_version := "apps/v1",
      kind := "Deployment", plural := "deployments" } (by decide)

/-- C7: `from_gvk` guesses the plural by applying the pluralization
heuristic to the ASCII-lower-cased kind; the concrete instances exercise
the regular-noun table (Pod→pods, Deployment→deployments) and each
heuristic rule (s/x/z/ch/sh→es, consonant-y→ies, default→s). -/
theorem from_gvk_plural_heuristic :
    (∀ gvk : GroupVersionKind,
      (ApiResource.from_gvk gvk).plural = to_plural (asciiLowercase gvk.kind))
  ∧ (ApiResource.from_gvk { group := "", version := "v1", kind := "Pod" }).plural = "pods"
  ∧ (ApiResource.from_gvk { group := "apps", version := "v1", kind := "Deployment" }).plural
      = "deployments"
  ∧ to_plural "ingress" = "ingresses"
  ∧ to_plural "box" = "boxes"
  ∧ to_plural "topaz" = "topazes"
  ∧ to_plural "branch" = "branches"
  ∧ to_plural "dash" = "dashes"
  ∧ to_plural "policy" = "policies"
  ∧ to_plural "day" = "days" :=
  ⟨fun _ => rfl, by decide, by decide, by decide, by decide, by decide, by decide,
   by decide, by decide, by decide⟩

/-- C4: `from_apiresource` splits a group-version string with exactly one
slash into (group, version), treats a slashless string as
(empty group, version), lets an explicit group/version on the discovery
entry override the split-derived defaults, and copies the entry's name as
the plural (the constructor is a total function). -/
theorem from_apiresource_group_version_split (ar : APIResource) (g v gv : String) :
    ('/' ∉ g.toList → '/' ∉ v.toList →
      ((ApiResource.from_apiresource ar (g ++ "/" ++ v)).group = ar.group.getD g
       ∧ (ApiResource.from_apiresource ar (g ++ "/" ++ v)).version = ar.version.getD v))
  ∧ ('/' ∉ gv.toList →
      ((ApiResource.from_apiresource ar gv).group = ar.group.getD ""
       ∧ (ApiResource.from_apiresource ar gv).version = ar.version.getD gv))
  ∧ (ApiResource.from_apiresource ar gv).plural = ar.name := by
  refine ⟨?_, ?_, rfl⟩
  · intro hg _
    have hdata : (g ++ "/" ++ v).data = g.data ++ '/' :: v.data := by
      rw [String.data_append, String.data_append, List.append_assoc]
      rfl
    have hsplit : splitFirst '/' (g.data ++ '/' :: v.data) = some (g.data, v.data) :=
      splitFirst_append v.data hg
    constructor <;> simp [ApiResource.from_apiresource, hdata, hsplit]
  · intro h
    have hsplit : splitFirst '/' gv.data = none := splitFirst_eq_none_of_not_mem h
    constructor <;> simp [ApiResource.from_apiresource, hsplit]

/-- Witness for the C4 theorem: the split of "apps/v1" with no explicit
override on the entry. -/
theorem from_apiresource_group_version_split_inst :
    (ApiResource.from_apiresource
      { group := none, kind := "Deployment", name := "deployments",
        namespaced := true, verbs := [], version := none } "apps/v1").group = "apps"
    ∧ (ApiResource.from_apiresource
      { group := none, kind := "Deployment", name := "deployments",
        namespaced := true, verbs := [], version := none } "apps/v1").version = "v1" :=
  (from_apiresource_group_version_split
    { group := none, kind := "Deployment", name := "deployments",
      namespaced := true, verbs := [], version := none } "apps" "v1" "apps/v1").1
    (by decide) (by decide)

/-- C5: the discovery lookup returns normally exactly when some entry
carries the target name; an unknown name reaches the aborting branch,
modelled as `none` rather than a typed error. -/
theorem from_apiresourcelist_lookup_total (list : APIResourceList) (name : String) :
    ((∃ ar ∈ list.resources, ar.name = name) →
      (ApiResourceExtras.from_apiresourcelist list name).isSome = true)
  ∧ ((∀ ar ∈ list.resources, ar.name ≠ name) →
      ApiResourceExtras.from_apiresourcelist list name = none) := by
  constructor
  · rintro ⟨ar, har, hname⟩
    have hfind : (list.resources.find? (fun r => r.name == name)).isSome := by
      rw [List.find?_isSome]
      exact ⟨ar, har, by simp [hname]⟩
    obtain ⟨b, hb⟩ := Option.isSome_iff_exists.mp hfind
    unfold ApiResourceExtras.from_apiresourcelist fromListFuel
    rw [hb]
    rfl
  · intro h
    have hfind : list.resources.find? (fun r => r.name == name) = none := by
      rw [List.find?_eq_none]
      intro x hx
      simp [h x hx]
    unfold ApiResourceExtras.from_apiresourcelist fromListFuel
    rw [hfind]

/-- Witness for the C5 theorem: lookup of a present name succeeds. -/

theorem from_apiresourcelist_lookup_total_inst :
    (ApiResourceExtras.from_apiresourcelist
      { group_version := "v1",
        resources := [{ group := none, kind := "Pod", name := "pods",
                        namespaced := true, verbs := ["get"], version := none }] }
      "pods").isSome = true :=
  (from_apiresourcelist_lookup_total
    { group_version := "v1",
      resources := [{ group := none, kind := "Pod", name := "pods",
                      namespaced := true, verbs := ["get"], version := none }] }
    "pods").1 ⟨_, List.mem_cons_self _ _, rfl⟩

/-- C6: each verb flag of the parsed operations is exactly an occurrence
test of its (case-sensitive) token among the entry's verbs, and `other`
collects the unrecognised verbs in document order. -/
theorem from_apiresourcelist_verb_classification (list : APIResourceList) (name : String)
    (ar : APIResource) (e : ApiResourceExtras)
    (hfind : list.resources.find? (fun r => r.name == name) = some ar)
    (h : ApiResourceExtras.from_apiresourcelist list name = some e) :
    e.operations =
      { create := ar.verbs.contains "create",
        get := ar.verbs.contains "get",
        list := ar.verbs.contains "list",
        watch := ar.verbs.contains "watch",
        delete := ar.verbs.contains "delete",
        delete_collection := ar.verbs.contains "deletecollection",
        update := ar.verbs.contains "update",
        patch := ar.verbs.contains "patch",
        other := ar.verbs.filter (fun v => !(knownVerbs.contains v)) } := by
  unfold ApiResourceExtras.from_apiresourcelist fromListFuel at h
  rw [hfind] at h
  have hx := Option.some.inj h
  subst hx
  show ar.verbs.foldl applyVerb Operations.empty = _
  rw [foldl_applyVerb]
  simp [Operations.empty]

/-- Witness for the C6 theorem: a single-entry document with two known
verbs and one unknown verb. -/
theorem from_apiresourcelist_verb_classification_inst :
    ApiResourceExtras.operations
      (ApiResourceExtras.mk Scope.Namespaced []
        { create := true, get := true, list := false, watch := false, delete := false,
          delete_collection := false, update := false, patch := false,
          other := ["frobnicate"] })
      = { create := true, get := true, list := false, watch := false, delete := false,
          delete_collection := false, update := false, patch := false,
          other := ["frobnicate"] } :=
  from_apiresourcelist_verb_classification
    { group_version := "v1",
      resources := [{ group := none, kind := "Pod", name := "pods",
                      namespaced := true, verbs := ["create", "get", "frobnicate"],
                      version := none }] }
    "pods"
    { group := none, kind := "Pod", name := "pods",
      namespaced := true, verbs := ["create", "get", "frobnicate"], version := none }
    (ApiResourceExtras.mk Scope.Namespaced []
      { create := true, get := true, list := false, watch := false, delete := false,
        delete_collection := false, update := false, patch := false,
        other := ["frobnicate"] })
    (by rfl) (by rfl)

/-- C2 counterexample: in the document with entries `foo`, `foo/status`
and `foo/status/logs`, the target `foo` receives TWO direct subresources
(the prefix strip does not require the local remainder to be slash-free,
so `foo/status/logs` also matches directly), refuting the claimed single
direct subresource. -/
theorem from_apiresourcelist_nested_subresource_cex :
    ((ApiResourceExtras.from_apiresourcelist fooDoc "foo").map
      (fun e => e.subresources.length) = some 2)
    ∧ ¬ ((ApiResourceExtras.from_apiresourcelist fooDoc "foo").map
      (fun e => e.subresources.length) = some 1) := by
  constructor <;> decide

/-- The direct-subresource pass keeps exactly the entries whose name
extends the prefix, recording the stripped remainder as the plural, in
document order; the recursive lookup for a kept entry always succeeds
because that entry is itself in the document. -/
theorem filterMap_subres_plural (list : APIResourceList) (pfx : String)
    (hpfx : 1 ≤ pfx.length) :
    ∀ rs : List APIResource, (∀ r ∈ rs, r ∈ list.resources) →
      ((rs.filterMap (fun res =>
          match stripPfxStr pfx res.name with
          | none => none
          | some sub =>
            match fromListFuel (maxNameLen list.resources) list res.name with
            | some extra =>
              some ({ ApiResource.from_apiresource res list.group_version with
                        plural := sub }, extra)
            | none => none)).map (fun p => p.1.plural))
      = rs.filterMap (fun r => stripPfxStr pfx r.name) := by
  intro rs
  induction rs with
  | nil => intro _; rfl
  | cons r rs ih =>
    intro hmem
    have hr : r ∈ list.resources := hmem r (List.mem_cons_self r rs)
    have hrest : ∀ x ∈ rs, x ∈ list.resources :=
      fun x hx => hmem x (List.mem_cons_of_mem r hx)
    cases hstrip : stripPfxStr pfx r.name with
    | none =>
      simp only [List.filterMap_cons, hstrip]
      exact ih hrest
    | some sub =>
      have hlen : pfx.length ≤ r.name.length := by
        cases hd : dropPfxChars pfx.toList r.name.toList with
        | none =>
          unfold stripPfxStr at hstrip
          rw [hd] at hstrip
          cases hstrip
        | some t =>
          have hde := dropPfxChars_eq_some hd
          have hlena : r.name.toList.length = pfx.toList.length + t.length := by
            rw [hde, List.length_append]
          show pfx.toList.length ≤ r.name.toList.length
          omega
      have h1 : 1 ≤ maxNameLen list.resources :=
        le_trans (le_trans hpfx hlen) (name_le_maxNameLen hr)
      obtain ⟨M, hM⟩ : ∃ M, maxNameLen list.resources = M + 1 :=
        ⟨maxNameLen list.resources - 1, by omega⟩
      have hsome : (fromListFuel (maxNameLen list.resources) list r.name).isSome = true := by
        rw [hM]
        unfold fromListFuel
        have hfs : (list.resources.find? (fun x => x.name == r.name)).isSome := by
          rw [List.find?_isSome]
          exact ⟨r, hr, by simp⟩
        obtain ⟨b, hb⟩ := Option.isSome_iff_exists.mp hfs
        rw [hb]
        rfl
      obtain ⟨ex, hex⟩ := Option.isSome_iff_exists.mp hsome
      simp only [List.filterMap_cons, hstrip, hex, List.map_cons]
      rw [ih hrest]

/-- C2 amended: every entry whose name extends the target name past a
slash becomes a direct subresource of the target, with plural the full
stripped remainder (which may itself contain slashes), in document order;
in particular, for a document with entries `foo`, `foo/status` and
`foo/status/logs`, `foo` has the two direct subresources "status" (whose
own subresources are exactly "logs", itself without subresources) and
"status/logs" (without subresources). -/
theorem from_apiresourcelist_subresource_tree :
    (∀ (n1 n2 n3 : Bool) (k1 k2 k3 : String) (vs1 vs2 vs3 : List String)
       (g1 g2 g3 v1 v2 v3 : Option String) (gv : String),
      (ApiResourceExtras.from_apiresourcelist
        { group_version := gv,
          resources :=
            [{ group := g1, kind := k1, name := "foo", namespaced := n1,
               verbs := vs1, version := v1 },
             { group := g2, kind := k2, name := "foo/status", namespaced := n2,
               verbs := vs2, version := v2 },
             { group := g3, kind := k3, name := "foo/status/logs", namespaced := n3,
               verbs := vs3, version := v3 }] } "foo").map
        (fun e => e.subresources.map (fun p =>
          (p.1.plural, p.2.subresources.map (fun q =>
            (q.1.plural, q.2.subresources.length)))))
      = some [("status", [("logs", 0)]), ("status/logs", [])])
  ∧ (∀ (list : APIResourceList) (name : String) (e : ApiResourceExtras),
      ApiResourceExtras.from_apiresourcelist list name = some e →
      e.subresources.map (fun p => p.1.plural) =
        list.resources.filterMap (fun r => stripPfxStr (name ++ "/") r.name)) := by
  constructor
  · intro n1 n2 n3 k1 k2 k3 vs1 vs2 vs3 g1 g2 g3 v1 v2 v3 gv
    rfl
  · intro list name e h
    unfold ApiResourceExtras.from_apiresourcelist fromListFuel at h
    cases hfind : list.resources.find? (fun r => r.name == name) with
    | none =>
      rw [hfind] at h
      cases h
    | some ar =>
      rw [hfind] at h
      have hx := Option.some.inj h
      subst hx
      have hpfx : 1 ≤ (name ++ "/").length := by
        have hone : ("/" : String).length = 1 := rfl
        rw [String.length_append]
        omega
      exact filterMap_subres_plural list (name ++ "/") hpfx list.resources (fun x hx => hx)

/-- Witness for the amended C2 theorem, applying its concrete-document
clause at explicit field values and its general clause at `fooDoc` with
the explicit computed tree. -/
theorem from_apiresourcelist_subresource_tree_inst :
    ((ApiResourceExtras.from_apiresourcelist fooDoc "foo").map
      (fun e => e.subresources.map (fun p =>
        (p.1.plural, p.2.subresources.map (fun q =>
          (q.1.plural, q.2.subresources.length)))))
    = some [("status", [("logs", 0)]), ("status/logs", [])])
    ∧ fooExtras.subresources.map (fun p => p.1.plural)
      = fooDoc.resources.filterMap (fun r => stripPfxStr ("foo" ++ "/") r.name) :=
  ⟨from_apiresourcelist_subresource_tree.1 true true true "Foo" "Foo" "Foo"
    ["get"] ["get"] ["get"] none none none none none none "g/v1",
   from_apiresourcelist_subresource_tree.2 fooDoc "foo" fooExtras (by rfl)⟩
